import Mathlib

/-!
Shallow embedding of the agent action protocol engine of
`src/services/autoglm-api-client.ts` (class `AutoGLMAPIClient`):
the response splitter `parseResponse`, the action decoder `parseAction`,
the coordinate normalizer `convertRelativeToAbsolute`, the dispatcher
`executeAction` and the step-bounded task loop `executeTask`.

Strings are modelled as lists of characters (`Str`).  JavaScript string
primitives (`includes`, `split`, `trim`, `startsWith`, `replace`) and the
concrete regular expressions used by the source are translated into
executable Lean functions on `Str`.  JavaScript numbers that the engine
treats as exact values (parsed decimal literals, screen dimensions) are
modelled as `ℚ` / `ℤ`.  Device and network effects are passed in
explicitly as per-step environment values.
-/

/-- Character strings, as used throughout the embedding. -/
abbrev Str := List Char

/-- The single-quote character (U+0027). -/
def SQ : Char := Char.ofNat 39

/-- Whitespace for JavaScript `String.prototype.trim` (the ASCII part:
space, tab, newline, carriage return, vertical tab, form feed). -/
def isTrimWS (c : Char) : Bool :=
  c = ' ' || c = '\t' || c = '\n' || c = '\r' || c = Char.ofNat 11 || c = Char.ofNat 12

/-- Model of JavaScript `s.trim()`. -/
def jsTrim (l : Str) : Str :=
  ((l.dropWhile isTrimWS).reverse.dropWhile isTrimWS).reverse

/-- Model of JavaScript `s.includes(sep)` for a non-empty `sep`:
substring containment. -/
def strContains (sep : Str) : Str → Bool
  | [] => decide (sep = [])
  | c :: rest => sep.isPrefixOf (c :: rest) || strContains sep rest

/-- Fuelled worker for `jsSplit`.  Each recursive call shortens the input,
so fuel `l.length` is always sufficient (the `0` case is unreachable then). -/
def jsSplitF (sep : Str) : Nat → Str → List Str
  | _, [] => [[]]
  | 0, l => [l]
  | f + 1, c :: rest =>
    if sep ≠ [] ∧ sep.isPrefixOf (c :: rest) then
      [] :: jsSplitF sep f ((c :: rest).drop sep.length)
    else
      match jsSplitF sep f rest with
      | [] => [[c]]
      | h :: t => (c :: h) :: t

/-- Model of JavaScript `s.split(sep)` for a non-empty separator `sep`:
the list of chunks between consecutive non-overlapping occurrences of
`sep`, scanned left to right. -/
def jsSplit (sep : Str) (l : Str) : List Str := jsSplitF sep l.length l

/-- Join a list of chunks with a separator; `joinSep sep (jsSplit sep l) = l`
for non-empty `sep` (proved below), tying the split chunks back to the
original string. -/
def joinSep (sep : Str) : List Str → Str
  | [] => []
  | [a] => a
  | a :: b :: t => a ++ sep ++ joinSep sep (b :: t)

/-- Model of JavaScript `s.replace(pat, "")` with a plain-string pattern:
removes the first occurrence of `pat` (only the first — JS `replace` with a
string pattern replaces a single occurrence). -/
def removeFirst (pat : Str) : Str → Str
  | [] => []
  | c :: rest =>
    if pat.isPrefixOf (c :: rest) then (c :: rest).drop pat.length
    else c :: removeFirst pat rest

/-- Replace every occurrence of the character `bad` by the two-character
sequence backslash-`repl` (one step of the decoder's control-character
escaping, a global-regex `replace`). -/
def esc1 (bad : Char) (repl : Char) (l : Str) : Str :=
  l.flatMap (fun c => if c = bad then ['\\', repl] else [c])

/-- The decoder's normalization of embedded control characters:
`response.replace(/\n/g,'\\n').replace(/\r/g,'\\r').replace(/\t/g,'\\t')`. -/
def escape3 (l : Str) : Str :=
  esc1 '\t' 't' (esc1 '\r' 'r' (esc1 '\n' 'n' l))

/-- Marker substring `finish(message=` of splitter rule 1. -/
def FINM : Str := "finish(message=".data

/-- Marker substring `do(action=` of splitter rule 2. -/
def DOM : Str := "do(action=".data

/-- Marker substring `<answer>` of splitter rule 3. -/
def ANSM : Str := "<answer>".data

/-- Result of the response splitter: reasoning and action directive. -/
structure SplitRes where
  thinking : Str
  action : Str
deriving DecidableEq, Repr

/-- Model of `parseResponse` (the Response Splitter), line by line:
rule 1 splits at `finish(message=`, rule 2 at `do(action=`, rule 3 at the
legacy `<answer>` tag (stripping `<think>`/`</think>`/`</answer>`, each a
first-occurrence `replace`), rule 4 falls back to the whole trimmed input.
Note that `'m' + parts[1]` re-attaches the marker to the chunk *between*
the first and second occurrence of the marker, not to everything after
the first occurrence. -/
def parseResponse (content : Str) : SplitRes :=
  if strContains FINM content then
    let parts := jsSplit FINM content
    ⟨jsTrim (parts.headD []), FINM ++ parts.getD 1 []⟩
  else if strContains DOM content then
    let parts := jsSplit DOM content
    ⟨jsTrim (parts.headD []), DOM ++ parts.getD 1 []⟩
  else if strContains ANSM content then
    let parts := jsSplit ANSM content
    ⟨jsTrim (removeFirst "</think>".data (removeFirst "<think>".data (parts.headD []))),
     jsTrim (removeFirst "</answer>".data (parts.getD 1 []))⟩
  else ⟨[], jsTrim content⟩

/-! ### Action decoder (`parseAction`) -/

/-- An element of a bracketed list: the scanner's list elements are always
primitive (the bracket contents cannot contain `]`, so no nesting arises). -/
inductive JItem where
  | str (s : Str)
  | num (q : ℚ)
deriving DecidableEq, Repr

/-- Dynamic values produced by the keyword-argument scanner: quoted strings,
numbers (`parseFloat` of an exact decimal literal, modelled as `ℚ`), and
bracketed lists. -/
inductive JVal where
  | str (s : Str)
  | num (q : ℚ)
  | list (l : List JItem)
deriving DecidableEq, Repr

/-- The decoded action object: the `_metadata` discriminator (`"do"` or
`"finish"`) plus the keyword arguments in assignment order (a later
assignment to the same key overwrites an earlier one, as for a JS object). -/
structure JAction where
  metadataTag : Str
  fields : List (Str × JVal)
deriving DecidableEq, Repr

/-- Property lookup on a `JAction` (last assignment wins). -/
def getField (a : JAction) (k : Str) : Option JVal :=
  a.fields.foldl (fun acc p => if p.1 = k then some p.2 else acc) none

/-- Lookup of a field expected to hold a string. -/
def getStr (a : JAction) (k : Str) : Option Str :=
  match getField a k with
  | some (.str s) => some s
  | _ => none

/-- Model of the JS `in` operator: is the key present at all? -/
def hasField (a : JAction) (k : Str) : Bool :=
  a.fields.any (fun p => p.1 = k)

/-- Decimal digit run to a natural number. -/
def digitsToNat (l : Str) : Nat := l.foldl (fun a c => 10 * a + (c.toNat - 48)) 0

/-- Word characters of the regex class `\w` = `[A-Za-z0-9_]`. -/
def isWordChar (c : Char) : Bool := c.isAlphanum || c = '_'

/-- Whitespace of the regex class `\s` (the ASCII part). -/
def isSpaceChar (c : Char) : Bool :=
  c = ' ' || c = '\t' || c = '\n' || c = '\r' || c = Char.ofNat 11 || c = Char.ofNat 12

/-- A quote character of the regex class `["']`. -/
def isQuote (c : Char) : Bool := c = '"' || c = SQ

/-- Split at the first occurrence of character `q`: `some (before, after)`
with `q` itself dropped, or `none` when `q` does not occur. -/
def breakAt (q : Char) : Str → Option (Str × Str)
  | [] => none
  | c :: rest =>
    if c = q then some ([], rest)
    else (breakAt q rest).map (fun p => (c :: p.1, p.2))

/-- JSON whitespace. -/
def jsonWS (c : Char) : Bool := c = ' ' || c = '\t' || c = '\n' || c = '\r'

/-- Fraction part of a JSON number (after the integer part). -/
def fracTail (q : ℚ) (l : Str) : Option (ℚ × Str) :=
  match l with
  | '.' :: r =>
    let fs := r.takeWhile Char.isDigit
    if fs = [] then none
    else some (q + (digitsToNat fs : ℚ) / (10 : ℚ) ^ fs.length, r.drop fs.length)
  | _ => some (q, l)

/-- Exponent digits (with optional sign) of a JSON number. -/
def expTail2 (q : ℚ) (l : Str) : Option (ℚ × Str) :=
  let p : ℤ × Str := match l with
    | '+' :: r => (1, r)
    | '-' :: r => (-1, r)
    | _ => (1, l)
  let ds := p.2.takeWhile Char.isDigit
  if ds = [] then none
  else some (q * (10 : ℚ) ^ (p.1 * (digitsToNat ds : ℤ)), p.2.drop ds.length)

/-- Optional exponent part of a JSON number. -/
def expTail (q : ℚ) (l : Str) : Option (ℚ × Str) :=
  match l with
  | 'e' :: r => expTail2 q r
  | 'E' :: r => expTail2 q r
  | _ => some (q, l)

/-- A JSON number (grammar `-?(0|[1-9][0-9]*)(\.[0-9]+)?([eE][+-]?[0-9]+)?`),
returned as an exact rational. -/
def jsonNum (l : Str) : Option (ℚ × Str) :=
  let p : Bool × Str := match l with
    | '-' :: r => (true, r)
    | _ => (false, l)
  let ds := p.2.takeWhile Char.isDigit
  if ds = [] then none
  else if ds.headD '0' = '0' ∧ ds.length ≠ 1 then none
  else
    match fracTail (digitsToNat ds : ℚ) (p.2.drop ds.length) with
    | none => none
    | some (q1, r1) =>
      match expTail q1 r1 with
      | none => none
      | some (q2, r2) => some ((if p.1 then -q2 else q2), r2)

/-- A JSON string without escape sequences (the bracket contents scanned by
the decoder cannot contain `]`, and escaped strings inside coordinates do
not occur; an escape or unterminated string is a strict-parse failure and
falls to the decoder's comma-split fallback). -/
def jsonStr (l : Str) : Option (Str × Str) :=
  match l with
  | '"' :: r =>
    let body := r.takeWhile (fun c => c ≠ '"' ∧ c ≠ '\\')
    match r.drop body.length with
    | '"' :: rest => some (body, rest)
    | _ => none
  | _ => none

/-- A JSON value as it can occur inside the decoder's bracketed lists. -/
def jsonVal (l : Str) : Option (JItem × Str) :=
  match jsonStr l with
  | some (s, r) => some (.str s, r)
  | none => (jsonNum l).map (fun p => (JItem.num p.1, p.2))

/-- Fuelled comma-separated JSON item list. -/
def jsonItems : Nat → Str → Option (List JItem)
  | 0, _ => none
  | fuel + 1, l =>
    match jsonVal l with
    | none => none
    | some (v, rest) =>
      let r := rest.dropWhile jsonWS
      match r with
      | [] => some [v]
      | ',' :: r2 => (jsonItems fuel (r2.dropWhile jsonWS)).map (v :: ·)
      | _ => none

/-- Model of `JSON.parse('[' + inner + ']')` for the bracket-free, escape-free
contents the scanner can produce. -/
def jsonParseList (inner : Str) : Option (List JItem) :=
  let l := inner.dropWhile jsonWS
  match l with
  | [] => some []
  | _ => jsonItems (inner.length + 1) l

/-- Signed exponent value for `parseFloat` (a malformed exponent is ignored,
contributing factor 1). -/
def expVal (l : Str) : ℤ :=
  let p : Bool × Str := match l with
    | '-' :: r => (true, r)
    | '+' :: r => (false, r)
    | _ => (false, l)
  let ds := p.2.takeWhile Char.isDigit
  if ds = [] then 0
  else if p.1 then -(digitsToNat ds : ℤ) else (digitsToNat ds : ℤ)

/-- Model of JavaScript `parseFloat` on an already-trimmed string: parses the
longest leading decimal prefix; `none` models `NaN`.  (`Infinity` inputs do
not occur in the scanned grammar and are not modelled.) -/
def parseFloatQ (s : Str) : Option ℚ :=
  let p : Bool × Str := match s with
    | '-' :: r => (true, r)
    | '+' :: r => (false, r)
    | _ => (false, s)
  let ds := p.2.takeWhile Char.isDigit
  let r1 := p.2.drop ds.length
  let fp : Str × Str := match r1 with
    | '.' :: r2 => (r2.takeWhile Char.isDigit, r2.drop (r2.takeWhile Char.isDigit).length)
    | _ => ([], r1)
  if ds = [] ∧ fp.1 = [] then none
  else
    let base : ℚ := (digitsToNat ds : ℚ) + (digitsToNat fp.1 : ℚ) / (10 : ℚ) ^ fp.1.length
    let e : ℤ := match fp.2 with
      | 'e' :: r3 => expVal r3
      | 'E' :: r3 => expVal r3
      | _ => 0
    let v := base * (10 : ℚ) ^ e
    some (if p.1 then -v else v)

/-- The scanner's bracketed-list value: strict `JSON.parse`, falling back to a
comma split with per-element `parseFloat` coercion (text kept when `NaN`). -/
def parseBracketList (inner : Str) : JVal :=
  match jsonParseList inner with
  | some vs => .list vs
  | none =>
    .list ((jsSplit [','] inner).map (fun s =>
      let tr := jsTrim s
      match parseFloatQ tr with
      | some q => JItem.num q
      | none => JItem.str tr))

/-- The bare-number value alternative `(\d+(?:\.\d+)?)`, evaluated by
`parseFloat` (exact here since the literal is plain decimal). -/
def numAlt (l : Str) : Option (JVal × Str) :=
  let ds := l.takeWhile Char.isDigit
  if ds = [] then none
  else
    let r := l.drop ds.length
    match r with
    | '.' :: r2 =>
      let fs := r2.takeWhile Char.isDigit
      if fs = [] then some (.num (digitsToNat ds : ℚ), r)
      else some (.num ((digitsToNat ds : ℚ) + (digitsToNat fs : ℚ) / (10 : ℚ) ^ fs.length),
                 r2.drop fs.length)
    | _ => some (.num (digitsToNat ds : ℚ), r)

/-- The value alternation `"..."` | `'...'` | `[...]` | number, tried in
order (the first character decides which alternative can apply; a
double-quoted alternative that finds no closing quote fails the whole
position, it does not fall through, and likewise for the others). -/
def tryValue (l : Str) : Option (JVal × Str) :=
  match l with
  | '"' :: r => (breakAt '"' r).map (fun p => (JVal.str p.1, p.2))
  | '[' :: r => (breakAt ']' r).map (fun p => (parseBracketList p.1, p.2))
  | c :: r =>
    if c = SQ then (breakAt SQ r).map (fun p => (JVal.str p.1, p.2))
    else numAlt (c :: r)
  | [] => none

/-- One attempted match of the keyword pattern
`(\w+)\s*=\s*(?:"([^"]*?)"|'([^']*?)'|\[([^\]]*)\]|(\d+(?:\.\d+)?))` at the
head of `l`: the maximal word run, optional whitespace, `=`, optional
whitespace, then a value.  Returns the pair and the rest after the match. -/
def tryKV (l : Str) : Option ((Str × JVal) × Str) :=
  let key := l.takeWhile isWordChar
  if key = [] then none
  else
    let r1 := (l.drop key.length).dropWhile isSpaceChar
    match r1 with
    | '=' :: r2 =>
      (tryValue (r2.dropWhile isSpaceChar)).map (fun p => ((key, p.1), p.2))
    | _ => none

/-- Fuelled global scan of the keyword pattern: on a match, continue after
it; otherwise advance one position (the regex engine's start-position
advance).  Fuel `l.length` suffices since both branches shorten the input. -/
def kvScanF : Nat → Str → List (Str × JVal)
  | _, [] => []
  | 0, _ => []
  | fuel + 1, c :: rest =>
    match tryKV (c :: rest) with
    | some (kv, r) => kv :: kvScanF fuel r
    | none => kvScanF fuel rest

/-- All keyword-argument matches in `l`, left to right (JS `while (exec)`). -/
def kvScan (l : Str) : List (Str × JVal) := kvScanF l.length l

/-- Characters the patterns `(.*)` can match: anything but a line break. -/
def noNL (l : Str) : Bool := l.all (fun c => c ≠ '\n' ∧ c ≠ '\r')

/-- One attempted match of `/text=["'](.*)["']\)$/` starting exactly at `u`
(which extends to the end of the directive): the literal `text=`, a quote,
then — because `$` anchors the end and `.` cannot cross a line break — the
capture is everything up to a quote immediately followed by the final `)`. -/
def attemptType (u : Str) : Option Str :=
  if ("text=".data).isPrefixOf u then
    match u.drop 5 with
    | q1 :: body =>
      if isQuote q1 then
        match body.reverse with
        | ')' :: q2 :: mrev =>
          if isQuote q2 && noNL mrev.reverse then some mrev.reverse else none
        | _ => none
      else none
    | [] => none
  else none

/-- Leftmost-match regex search: try the pattern attempt at every start
position, left to right. -/
def scanFirst (f : Str → Option Str) : Str → Option Str
  | [] => f []
  | c :: rest =>
    match f (c :: rest) with
    | some m => some m
    | none => scanFirst f rest

/-- Model of `/^do\((.*)\)$/s`: both ends anchored and `.` matching line
breaks, so the content is everything strictly between `do(` and a final `)`. -/
def doContent (r : Str) : Option Str :=
  if ("do(".data).isPrefixOf r then
    match (r.drop 3).reverse with
    | ')' :: midrev => some midrev.reverse
    | _ => none
  else none

/-- Case-insensitive character comparison (ASCII, for the `/i` regex flag). -/
def ciEq (a b : Char) : Bool := a.toLower = b.toLower

/-- Case-insensitive `isPrefixOf`. -/
def ciIsPrefixOf : Str → Str → Bool
  | [], _ => true
  | _ :: _, [] => false
  | a :: ar, b :: br => ciEq a b && ciIsPrefixOf ar br

/-- Largest index `j` with `l[j]` a quote and `l[j+1] = ')'` (the greedy
backtrack target of `(.*)["']\)`). -/
def findLastQP : Str → Option Nat
  | [] => none
  | c :: rest =>
    match findLastQP rest with
    | some j => some (j + 1)
    | none =>
      match rest with
      | ')' :: _ => if isQuote c then some 0 else none
      | _ => none

/-- Greedy capture of `(.*)["']\)` inside `/finish\(message\s*=\s*["'](.*)["']\)/i`:
the capture may not contain a line break, and greediness picks the last
quote-then-`)` within the line-break-free prefix. -/
def greedyCap (body : Str) : Option Str :=
  let pre := body.takeWhile (fun c => c ≠ '\n' ∧ c ≠ '\r')
  (findLastQP pre).map pre.take

/-- One attempted match of `/finish\(message\s*=\s*["'](.*)["']\)/i` starting
at `u`. -/
def strictFinishAt (u : Str) : Option Str :=
  if ciIsPrefixOf ("finish(message".data) u then
    match (u.drop 14).dropWhile isSpaceChar with
    | '=' :: r2 =>
      match r2.dropWhile isSpaceChar with
      | q :: body => if isQuote q then greedyCap body else none
      | [] => none
    | _ => none
  else none

/-- Maximal non-empty run of `[^"')]+`, or `none`. -/
def capRun (s : Str) : Option Str :=
  let c := s.takeWhile (fun c => c ≠ '"' ∧ c ≠ SQ ∧ c ≠ ')')
  if c = [] then none else some c

/-- One attempted match of the fallback `/message\s*=\s*["']?([^"')]+)/i`
starting at `u`.  When the optional quote is present but nothing capturable
follows it, backtracking to the empty quote cannot help (the quote itself is
excluded from the capture class), so the position fails. -/
def fallbackAt (u : Str) : Option Str :=
  if ciIsPrefixOf ("message".data) u then
    match (u.drop 7).dropWhile isSpaceChar with
    | '=' :: r2 =>
      match r2.dropWhile isSpaceChar with
      | q :: rest => if isQuote q then capRun rest else capRun (q :: rest)
      | [] => none
    | _ => none
  else none

/-- The `finish(...)` branch of `parseAction`: strict quoted extraction of the
`message` keyword, then best-effort extraction, then the whole response. -/
def parseFinish (response : Str) : JAction :=
  match scanFirst strictFinishAt response with
  | some m => ⟨"finish".data, [("message".data, .str m)]⟩
  | none =>
    match scanFirst fallbackAt response with
    | some m => ⟨"finish".data, [("message".data, .str m)]⟩
    | none => ⟨"finish".data, [("message".data, .str response)]⟩

/-- Prefix triggering the `Type` special case. -/
def TY1 : Str := "do(action=\"Type\"".data

/-- Prefix triggering the `Type_Name` special case. -/
def TY2 : Str := "do(action=\"Type_Name\"".data

deriving instance DecidableEq for Except

/-- Model of `parseAction` (the Action Decoder).  `Except.error` models the
thrown `Error`; the outer catch re-wraps the message with
`Failed to parse action: `. -/
def parseAction (actionStr : Str) : Except Str JAction :=
  let response := jsTrim actionStr
  let special : Option Str :=
    if TY1.isPrefixOf response || TY2.isPrefixOf response then
      scanFirst attemptType response
    else none
  match special with
  | some text =>
    let actionType :=
      if strContains ("Type_Name".data) response then "Type_Name".data else "Type".data
    .ok ⟨"do".data, [("action".data, .str actionType), ("text".data, .str text)]⟩
  | none =>
    if ("do(".data).isPrefixOf response then
      match doContent (escape3 response) with
      | none => .error ("Failed to parse action: Invalid do() format".data)
      | some content => .ok ⟨"do".data, kvScan content⟩
    else if ("finish(".data).isPrefixOf response || ("Finish(".data).isPrefixOf response then
      .ok (parseFinish response)
    else
      .error ("Failed to parse action: Failed to parse action: ".data ++ response)


/-! ### Coordinate normalizer and dispatcher (`executeAction`) -/

/-- Model of `convertRelativeToAbsolute`: `Math.round(element[i] / 1000 * dim)`.
`Math.round` rounds half toward positive infinity, which is Mathlib's
`round` (`⌊x + 1/2⌋`) on `ℚ`. -/
def convertRelativeToAbsolute (element : List ℚ) (screen_width screen_height : ℤ) : ℤ × ℤ :=
  (round (element.getD 0 0 / 1000 * (screen_width : ℚ)),
   round (element.getD 1 0 / 1000 * (screen_height : ℚ)))

/-- Result shape of `executeAction` and the `_handle*` helpers
(`shouldFinish` left `undefined` is modelled as `false`). -/
structure ExecRes where
  success : Bool
  shouldFinish : Bool
  message : Option Str
deriving DecidableEq, Repr

/-- JS falsiness of an optional keyword value (`undefined`, `""` and `0` are
falsy; arrays are truthy). -/
def jfalsy : Option JVal → Bool
  | none => true
  | some (.str s) => s = []
  | some (.num q) => q = 0
  | some (.list _) => false

/-- String interpolation of a keyword value.  Only string values ever reach
an interpolation site on the paths the claims exercise; the JS
stringification of numbers and arrays is abstracted. -/
def jvalShow : JVal → Str
  | .str s => s
  | .num _ => "<number>".data
  | .list _ => "<list>".data

/-- Numeric coercion of a list element for coordinate conversion.  A
non-numeric entry would give `NaN` pixel coordinates in JS; they only feed
the device command string, never the recorded outcome, so `0` stands in. -/
def jitemNum : JItem → ℚ
  | .num q => q
  | .str _ => 0

/-- The guard `!element || !Array.isArray(element) || element.length < 2`:
returns the list when it passes. -/
def elemList : Option JVal → Option (List JItem)
  | some (.list l) => if 2 ≤ l.length then some l else none
  | _ => none

/-- The `lang` configuration value (`'cn' | 'en'`). -/
inductive Lang where
  | cn
  | en
deriving DecidableEq, Repr

/-- Engine configuration.  `systemPrompt` abstracts `getSystemPrompt()`
(a fixed text given the date and language); `appPackages` abstracts the
`APP_PACKAGES` lookup table imported from `config/apps`, which is not part
of the engine.  `maxSteps` and `lang` are the fields of `AutoGLMConfig`
the loop reads. -/
structure Config where
  maxSteps : Nat
  lang : Lang
  systemPrompt : Str
  appPackages : Str → Option Str

/-- Per-step external effects: the screenshot (never throws — capture has an
internal fallback image), the foreground-app query, the model call, and the
outcome of the ADB command sequence a dispatched handler runs (`.error`
models a thrown exec error, caught by `executeAction`'s `catch`). -/
structure StepEnv where
  width : ℤ
  height : ℤ
  base64 : Str
  currentApp : Except Str Str
  apiResult : Except Str Str
  adb : Except Str Unit

/-- Model of `_handleLaunch`. -/
def handleLaunch (cfg : Config) (action : JAction) (adb : Except Str Unit) :
    Except Str ExecRes :=
  let app := getField action ("app".data)
  if jfalsy app then .ok ⟨false, false, some ("No app name specified".data)⟩
  else
    match cfg.appPackages ((app.map jvalShow).getD []) with
    | none => .ok ⟨false, false, some ("App not found: ".data ++ (app.map jvalShow).getD [])⟩
    | some _pkg =>
      match adb with
      | .error e => .error e
      | .ok _ => .ok ⟨true, false, none⟩

/-- Model of `_handleTap` (the sensitive-operation `message` check only
logs; the converted pixel pair feeds the `input tap` command string). -/
def handleTap (action : JAction) (adb : Except Str Unit) (width height : ℤ) :
    Except Str ExecRes :=
  match elemList (getField action ("element".data)) with
  | none => .ok ⟨false, false, some ("No element coordinates".data)⟩
  | some element =>
    let _xy := convertRelativeToAbsolute (element.map jitemNum) width height
    match adb with
    | .error e => .error e
    | .ok _ => .ok ⟨true, false, none⟩

/-- Model of `_handleType` (IME switch, clear, base64 text broadcast; the
whole ADB sequence's outcome is the step's `adb` environment value). -/
def handleType (action : JAction) (adb : Except Str Unit) : Except Str ExecRes :=
  let _text := (getStr action ("text".data)).getD []
  match adb with
  | .error e => .error e
  | .ok _ => .ok ⟨true, false, none⟩

/-- Model of `_handleSwipe`. -/
def handleSwipe (action : JAction) (adb : Except Str Unit) (width height : ℤ) :
    Except Str ExecRes :=
  match elemList (getField action ("start".data)), elemList (getField action ("end".data)) with
  | some s, some e2 =>
    let _p1 := convertRelativeToAbsolute (s.map jitemNum) width height
    let _p2 := convertRelativeToAbsolute (e2.map jitemNum) width height
    match adb with
    | .error e => .error e
    | .ok _ => .ok ⟨true, false, none⟩
  | _, _ => .ok ⟨false, false, some ("Missing swipe coordinates".data)⟩

/-- Model of `_handleBack` / `_handleHome` (a single key event). -/
def handleKeyEvent (adb : Except Str Unit) : Except Str ExecRes :=
  match adb with
  | .error e => .error e
  | .ok _ => .ok ⟨true, false, none⟩

/-- Model of `_handleDoubleTap`. -/
def handleDoubleTap (action : JAction) (adb : Except Str Unit) (width height : ℤ) :
    Except Str ExecRes :=
  match elemList (getField action ("element".data)) with
  | none => .ok ⟨false, false, some ("No element coordinates".data)⟩
  | some element =>
    let _xy := convertRelativeToAbsolute (element.map jitemNum) width height
    match adb with
    | .error e => .error e
    | .ok _ => .ok ⟨true, false, none⟩

/-- Model of `_handleLongPress` (a same-start-and-end swipe). -/
def handleLongPress (action : JAction) (adb : Except Str Unit) (width height : ℤ) :
    Except Str ExecRes :=
  match elemList (getField action ("element".data)) with
  | none => .ok ⟨false, false, some ("No element coordinates".data)⟩
  | some element =>
    let _xy := convertRelativeToAbsolute (element.map jitemNum) width height
    match adb with
    | .error e => .error e
    | .ok _ => .ok ⟨true, false, none⟩

/-- Model of `_handleWait`: parse the `duration` string (defaulting on a
falsy value; a non-string value would throw on `.replace` and is caught by
`executeAction`'s catch), then run `sleep`. -/
def handleWait (action : JAction) (adb : Except Str Unit) : Except Str ExecRes :=
  match getField action ("duration".data) with
  | some (.num _) => .error ("duration_str.replace is not a function".data)
  | some (.list _) => .error ("duration_str.replace is not a function".data)
  | d0 =>
    let dstr :=
      match d0 with
      | some (.str s) => if s = [] then "1 seconds".data else s
      | _ => "1 seconds".data
    let _duration :=
      (parseFloatQ (jsTrim (removeFirst ("second".data) (removeFirst ("seconds".data) dstr)))).getD 1
    match adb with
    | .error e => .error e
    | .ok _ => .ok ⟨true, false, none⟩

/-- Model of `_handleTakeover` (no device command; never throws). -/
def handleTakeover (action : JAction) : ExecRes :=
  let m := getField action ("message".data)
  ⟨true, false, some (if jfalsy m then "User intervention required".data
                      else jvalShow (m.getD (.str [])))⟩

/-- Model of `_handleNote`. -/
def handleNote (action : JAction) : ExecRes :=
  ⟨true, false, (getField action ("message".data)).map jvalShow⟩

/-- Model of `_handleCallApi`. -/
def handleCallApi (action : JAction) : ExecRes :=
  ⟨true, false, (getField action ("instruction".data)).map jvalShow⟩

/-- Model of `_handleInteract`. -/
def handleInteract : ExecRes :=
  ⟨true, false, some ("User interaction required".data)⟩

/-- Model of `executeAction`: a `finish` action succeeds unconditionally and
signals `shouldFinish`; a non-`do`, non-`finish` discriminator fails and
signals `shouldFinish`; otherwise the switch on the `action` keyword runs
the matching handler inside a try/catch that converts a thrown exec error
into `{ success: false, message }`. -/
def executeAction (cfg : Config) (action : JAction) (adb : Except Str Unit)
    (width height : ℤ) : ExecRes :=
  if action.metadataTag = "finish".data then
    ⟨true, true, (getField action ("message".data)).map jvalShow⟩
  else if action.metadataTag ≠ "do".data then
    ⟨false, true, some ("Unknown action type: ".data ++ action.metadataTag)⟩
  else
    let aname := getField action ("action".data)
    let dispatch : Except Str ExecRes :=
      if aname = some (.str ("Launch".data)) then handleLaunch cfg action adb
      else if aname = some (.str ("Tap".data)) then handleTap action adb width height
      else if aname = some (.str ("Type".data)) ∨ aname = some (.str ("Type_Name".data)) then
        handleType action adb
      else if aname = some (.str ("Swipe".data)) then handleSwipe action adb width height
      else if aname = some (.str ("Back".data)) then handleKeyEvent adb
      else if aname = some (.str ("Home".data)) then handleKeyEvent adb
      else if aname = some (.str ("Double Tap".data)) then handleDoubleTap action adb width height
      else if aname = some (.str ("Long Press".data)) then handleLongPress action adb width height
      else if aname = some (.str ("Wait".data)) then handleWait action adb
      else if aname = some (.str ("Take_over".data)) then .ok (handleTakeover action)
      else if aname = some (.str ("Note".data)) then .ok (handleNote action)
      else if aname = some (.str ("Call_API".data)) then .ok (handleCallApi action)
      else if aname = some (.str ("Interact".data)) then .ok handleInteract
      else .ok ⟨false, false,
        some ("Unknown action: ".data ++ (aname.map jvalShow).getD ("undefined".data))⟩
    match dispatch with
    | .ok r => r
    | .error e => ⟨false, false, some e⟩

/-! ### Task loop (`executeTask`) -/

/-- Conversation roles. -/
inductive Role where
  | system
  | user
  | assistant
deriving DecidableEq, Repr

/-- One element of an array-valued message content: a text part or an
image-URL part. -/
inductive MPart where
  | ptext (s : Str)
  | pimage (url : Str)
deriving DecidableEq, Repr

/-- Message content: either a plain string or an array of parts. -/
inductive MContent where
  | txt (s : Str)
  | parts (ps : List MPart)
deriving DecidableEq, Repr

/-- A conversation turn (`AutoGLMMessage`). -/
structure Msg where
  role : Role
  content : MContent
deriving DecidableEq, Repr

/-- One recorded step of a task (`result.actions[i]`). -/
structure StepRec where
  step : Nat
  thinking : Str
  action : JAction
  success : Bool
  result : Option Str
  error : Option Str
deriving DecidableEq, Repr

/-- The task result (`AutoGLMTaskResult`). -/
structure TaskRes where
  success : Bool
  finished : Bool
  completed : Bool
  steps : Nat
  totalSteps : Nat
  actions : List StepRec
  message : Option Str
  finalState : Option Str
  error : Option Str
  deviceId : Option Str
deriving DecidableEq, Repr

/-- The loop's mutable state: the result being built, the conversation, the
step counter and the finished flag. -/
structure LoopSt where
  result : TaskRes
  context : List Msg
  stepCount : Nat
  finished : Bool
deriving DecidableEq, Repr

/-- Model of `a || b` on optional strings, where an empty string is falsy. -/
def orFalsy (a b : Option Str) : Option Str :=
  match a with
  | some s => if s = [] then b else some s
  | none => b

/-- The system turn installed at context index 0. -/
def systemMsg (cfg : Config) : Msg := ⟨.system, .txt cfg.systemPrompt⟩

/-- Model of `buildScreenInfo`. -/
def buildScreenInfo (cfg : Config) (currentApp : Str) : Str :=
  match cfg.lang with
  | .en => "Current App: ".data ++ currentApp
  | .cn => "当前应用: ".data ++ currentApp

/-- Collapse an array-valued content to the text of its first text part
(the `find(x => x.type == 'text')?.text` projection). -/
def collapseContent : MContent → MContent
  | .parts ps => .txt (((ps.filterMap fun p =>
      match p with
      | .ptext s => some s
      | .pimage _ => none)).headD [])
  | .txt s => .txt s

/-- Rewrite the last message of the context to its text-only collapse
(`context[context.length - 1] = lastMessage` after the mutation). -/
def collapseLast (ctx : List Msg) : List Msg :=
  match ctx.getLast? with
  | none => ctx
  | some m => ctx.dropLast ++ [⟨m.role, collapseContent m.content⟩]

/-- Initial loop state: default-false result, the conversation holding only
the system turn, step counter 0. -/
def initState (cfg : Config) (deviceId : Option Str) : LoopSt :=
  ⟨⟨false, false, false, 0, 0, [], none, none, none, deviceId⟩,
   [systemMsg cfg], 0, false⟩

/-- One iteration of the `while` body of `executeTask`, in source order:
increment the step counter and mirror it into the result; inside the `try`,
query the foreground app (the screenshot itself cannot throw), build and
push the user turn (text part plus screenshot image part), call the model,
split the response, decode the action (a decode failure throws), collapse
the just-consumed user turn to text-only, dispatch the action (followed by
the settle delay, a pure pause), append the step record, append the
assistant turn, and check the finish condition.  The `catch` records the
error message on the result, clears `success`, and sets `finished`. -/
def stepIter (cfg : Config) (task : Str) (env : StepEnv) (st : LoopSt) : LoopSt :=
  let sc := st.stepCount + 1
  let res1 := { st.result with steps := sc, totalSteps := sc }
  match env.currentApp with
  | .error e =>
    ⟨{ res1 with error := some e, success := false }, st.context, sc, true⟩
  | .ok currentApp =>
    let screenInfo := buildScreenInfo cfg currentApp
    let userContent :=
      if sc = 1 then task ++ "\n\n".data ++ screenInfo
      else "** Screen Info **\n\n".data ++ screenInfo
    let userMsg : Msg :=
      ⟨.user, .parts [.ptext userContent,
                      .pimage ("data:image/png;base64,".data ++ env.base64)]⟩
    let ctx1 := st.context ++ [userMsg]
    match env.apiResult with
    | .error e =>
      ⟨{ res1 with error := some e, success := false }, ctx1, sc, true⟩
    | .ok responseText =>
      let parsed := parseResponse responseText
      match parseAction parsed.action with
      | .error e =>
        ⟨{ res1 with error := some e, success := false }, ctx1, sc, true⟩
      | .ok action =>
        let ctx2 := collapseLast ctx1
        let actionResult := executeAction cfg action env.adb env.width env.height
        let stepRecord : StepRec :=
          ⟨sc, parsed.thinking, action, actionResult.success, actionResult.message,
           if actionResult.success then none else actionResult.message⟩
        let res2 := { res1 with actions := res1.actions ++ [stepRecord] }
        let ctx3 := ctx2 ++
          [⟨.assistant, .txt ("<answer>".data ++ parsed.thinking ++ "\n\n".data ++
                              parsed.action ++ "</answer>".data)⟩]
        if action.metadataTag = "finish".data || actionResult.shouldFinish then
          let fmsg := orFalsy actionResult.message
                        ((getField action ("message".data)).map jvalShow)
          ⟨{ res2 with finished := true, completed := true,
                       success := actionResult.success,
                       message := fmsg, finalState := fmsg },
           ctx3, sc, true⟩
        else ⟨res2, ctx3, sc, false⟩

/-- Fuelled `while (stepCount < maxSteps && !finished)` loop.  `stepIter`
increments `stepCount` by exactly one, so starting from step count 0 the
guard fails after at most `maxSteps` iterations and fuel `maxSteps` never
runs out before the guard does. -/
def runAux (cfg : Config) (task : Str) (env : Nat → StepEnv) : Nat → LoopSt → LoopSt
  | 0, st => st
  | fuel + 1, st =>
    if st.stepCount < cfg.maxSteps ∧ st.finished = false then
      runAux cfg task env fuel (stepIter cfg task (env st.stepCount) st)
    else st

/-- Model of `executeTask`: run the loop from the initial state and return
the built result.  The per-step external effects are supplied as `env`
(step `k`, 0-based, reads `env k`); the optional `onStep` observer performs
no state change and is omitted. -/
def executeTask (cfg : Config) (task : Str) (deviceId : Option Str)
    (env : Nat → StepEnv) : TaskRes :=
  (runAux cfg task env cfg.maxSteps (initState cfg deviceId)).result

/-! ### Claim-support definitions -/

/-- The concrete prefix of a quoted `Type` directive, `do(action="Type", text="`. -/
def P4 : Str := "do(action=\"Type\", text=\"".data

/-- The closing of a quoted `Type` directive: a quote and the final `)`. -/
def S4 : Str := "\")".data

/-- Invariant tying step records to the step counter: record step indices are
`1, 2, ..., n` with no gaps, `result.steps` mirrors the counter, the counter
exceeds the record count by one exactly when a fatal error was stored, and a
stored error forces the finished flag. -/
def loopInv (st : LoopSt) : Prop :=
  st.result.actions.map StepRec.step = List.range' 1 st.result.actions.length ∧
  st.result.steps = st.stepCount ∧
  st.stepCount = st.result.actions.length + (if st.result.error.isSome then 1 else 0) ∧
  (st.result.error.isSome = true → st.finished = true)

/-- A message whose content is a plain string (image-free). -/
def textOnlyMsg (m : Msg) : Bool :=
  match m.content with
  | .txt _ => true
  | .parts _ => false

/-- History invariant of the conversation: the system turn sits unmodified at
index 0 and every persisted turn is text-only. -/
def historyInvB (cfg : Config) (st : LoopSt) : Bool :=
  decide (st.context.head? = some (systemMsg cfg)) && st.context.all textOnlyMsg

/-- A step environment on which the iteration completes: the foreground-app
query and the model call succeed and the returned completion decodes. -/
def cleanEnv (e : StepEnv) : Bool :=
  e.currentApp.isOk &&
  (match e.apiResult with
   | .ok r => (parseAction (parseResponse r).action).isOk
   | .error _ => false)

/-- A configuration allowing a single step. -/
def cfgOneStep : Config := ⟨1, .en, "SYS".data, fun _ => none⟩

/-- A configuration allowing two steps. -/
def cfgTwoStep : Config := ⟨2, .en, "SYS".data, fun _ => none⟩

/-- A step environment whose model reply is a well-formed `Tap` directive and
whose device commands succeed. -/
def envTapOk : StepEnv :=
  ⟨1080, 2400, "IMG".data, .ok ("unknown".data),
   .ok ("do(action=\"Tap\", element=[500, 500])".data), .ok ()⟩

/-- A step environment whose model reply matches no directive shape. -/
def envGarbage : StepEnv :=
  ⟨1080, 2400, "IMG".data, .ok ("unknown".data), .ok ("hello there".data), .ok ()⟩

/-- A step environment whose model reply is a finish directive. -/
def envFinish : StepEnv :=
  ⟨1080, 2400, "IMG".data, .ok ("unknown".data),
   .ok ("finish(message=\"Task completed.\")".data), .ok ()⟩

/-- The decoded form of `finish(message="Task completed.")`. -/
def finAct : JAction :=
  ⟨"finish".data, [("message".data, .str ("Task completed.".data))]⟩


/-! ### Supporting lemmas -/

/-- The executable `isPrefixOf` agrees with the prefix relation. -/
theorem isPrefixOf_eq_true_iff {l1 l2 : Str} : l1.isPrefixOf l2 = true ↔ l1 <+: l2 :=
  List.isPrefixOf_iff_prefix

theorem isPrefixOf_false_of_head_ne {a b : Char} (hne : ¬ a = b) (l1 l2 : Str) :
    (a :: l1).isPrefixOf (b :: l2) = false := by
  simp [List.isPrefixOf, hne]

theorem dropWhile_cons_false {p : Char → Bool} {c : Char} (h : p c = false) (l : Str) :
    (c :: l).dropWhile p = c :: l := by
  simp [List.dropWhile_cons, h]

theorem jsTrim_sandwich (a b : Char) (ha : isTrimWS a = false) (hb : isTrimWS b = false)
    (m : Str) : jsTrim (a :: (m ++ [b])) = a :: (m ++ [b]) := by
  unfold jsTrim
  rw [dropWhile_cons_false ha]
  have hrev : (a :: (m ++ [b])).reverse = b :: (m.reverse ++ [a]) := by simp
  rw [hrev, dropWhile_cons_false hb]
  simp

theorem suffix_append_cases {u A B : Str} (h : u <:+ A ++ B) :
    u <:+ B ∨ ∃ v, v <:+ A ∧ v ≠ [] ∧ u = v ++ B := by
  obtain ⟨pre, hpre⟩ := h
  rcases List.append_eq_append_iff.mp hpre with ⟨w, hA, hu⟩ | ⟨w, hp, hB⟩
  · cases w with
    | nil => left; simp at hu; rw [hu]
    | cons wc wr =>
      right
      exact ⟨wc :: wr, ⟨pre, hA.symm⟩, by simp, hu⟩
  · left
    exact ⟨w, hB.symm⟩

theorem scanFirst_eq_none_of (f : Str → Option Str) :
    ∀ l : Str, (∀ u, u <:+ l → f u = none) → scanFirst f l = none := by
  intro l
  induction l with
  | nil => intro h; exact h [] (List.suffix_refl [])
  | cons c rest ih =>
    intro h
    simp only [scanFirst]
    rw [h (c :: rest) (List.suffix_refl _)]
    exact ih fun u hu => h u (hu.trans (List.suffix_cons c rest))

theorem strContains_of_infix_rel {sep : Str} : ∀ {l : Str}, sep <:+: l → strContains sep l = true := by
  intro l
  induction l with
  | nil =>
    intro h
    rw [List.infix_nil] at h
    subst h
    rfl
  | cons c rest ih =>
    intro h
    obtain ⟨s, t, hst⟩ := h
    cases s with
    | nil =>
      have hpre : sep.isPrefixOf (c :: rest) = true := by
        apply isPrefixOf_eq_true_iff.mpr
        exact ⟨t, by simpa using hst⟩
      simp [strContains, hpre]
    | cons s0 s1 =>
      have hrest : sep <:+: rest := by
        refine ⟨s1, t, ?_⟩
        have := hst
        simp only [List.cons_append] at this
        exact (List.cons.injEq _ _ _ _ ▸ this).2
      simp [strContains, ih hrest]

theorem noNL_eq_false_of_mem {t : Str} (h : '\n' ∈ t) : noNL t = false := by
  cases hx : noNL t with
  | false => rfl
  | true =>
    exfalso
    rw [noNL] at hx
    have := List.all_eq_true.mp hx '\n' h
    simp at this

theorem takeWhile_append_stop {p : Char → Bool} :
    ∀ {l₁ : Str}, (l₁.takeWhile p).length < l₁.length →
      ∀ l₂ : Str, (l₁ ++ l₂).takeWhile p = l₁.takeWhile p := by
  intro l₁
  induction l₁ with
  | nil => intro h; simp at h
  | cons c r ih =>
    intro h l₂
    cases hp : p c with
    | false => simp [List.takeWhile_cons, hp]
    | true =>
      rw [List.takeWhile_cons, hp] at h
      simp only [List.cons_append, List.takeWhile_cons, hp, if_true]
      rw [ih (by simpa using h) l₂]

theorem breakAt_append_left {q : Char} :
    ∀ {l₁ : Str} {a b : Str}, breakAt q l₁ = some (a, b) →
      ∀ l₂ : Str, breakAt q (l₁ ++ l₂) = some (a, b ++ l₂) := by
  intro l₁
  induction l₁ with
  | nil =>
    intro a b h
    rw [show breakAt q ([] : Str) = none from rfl] at h
    exact Option.noConfusion h
  | cons c r ih =>
    intro a b h l₂
    by_cases hc : c = q
    · rw [breakAt, if_pos hc] at h
      obtain ⟨ha, hb⟩ := Prod.mk.injEq _ _ _ _ ▸ Option.some_inj.mp h
      subst ha; subst hb
      simp only [List.cons_append]
      rw [breakAt, if_pos hc]
    · rw [breakAt, if_neg hc] at h
      cases hr : breakAt q r with
      | none => rw [hr] at h; exact Option.noConfusion h
      | some p0 =>
        rw [hr] at h
        simp only [Option.map_some'] at h
        obtain ⟨ha, hb⟩ := Prod.mk.injEq _ _ _ _ ▸ Option.some_inj.mp h
        simp only [List.cons_append]
        rw [breakAt, if_neg hc, ih hr l₂]
        simp [← ha, ← hb]

theorem breakAt_append_notMem {q : Char} :
    ∀ {l₁ : Str}, ¬ q ∈ l₁ → ∀ l₂ : Str,
      breakAt q (l₁ ++ l₂) = (breakAt q l₂).map (fun p => (l₁ ++ p.1, p.2)) := by
  intro l₁
  induction l₁ with
  | nil =>
    intro _ l₂
    simp only [List.nil_append]
    cases h : breakAt q l₂ <;> simp
  | cons c r ih =>
    intro hmem l₂
    have hc : ¬ c = q := fun hh => hmem (by rw [hh]; exact List.mem_cons_self _ _)
    have hr : ¬ q ∈ r := fun hh => hmem (List.mem_cons_of_mem _ hh)
    simp only [List.cons_append]
    rw [breakAt, if_neg hc, ih hr l₂]
    cases h : breakAt q l₂ <;> simp

theorem mem_esc1 {c bad rep : Char} {l : Str} (h : c ∈ esc1 bad rep l) :
    c ∈ l ∨ c = '\\' ∨ c = rep := by
  rw [esc1, List.mem_flatMap] at h
  obtain ⟨a, ha, hc⟩ := h
  by_cases hab : a = bad
  · rw [if_pos hab] at hc
    right
    rcases List.mem_cons.mp hc with hc1 | hc2
    · left; exact hc1
    · right; simpa using hc2
  · rw [if_neg hab] at hc
    left
    simp at hc
    exact hc ▸ ha

theorem esc1_append (bad rep : Char) (a b : Str) :
    esc1 bad rep (a ++ b) = esc1 bad rep a ++ esc1 bad rep b := by
  simp [esc1]

theorem escape3_append (a b : Str) : escape3 (a ++ b) = escape3 a ++ escape3 b := by
  simp [escape3, esc1_append]

theorem not_mem_esc1 {c bad rep : Char} {l : Str} (hl : ¬ c ∈ l) (h1 : ¬ c = '\\')
    (h2 : ¬ c = rep) : ¬ c ∈ esc1 bad rep l := by
  intro h
  rcases mem_esc1 h with h | h | h
  · exact hl h
  · exact h1 h
  · exact h2 h

theorem not_mem_escape3_dq {t : Str} (h : ¬ '"' ∈ t) : ¬ '"' ∈ escape3 t := by
  rw [escape3]
  exact not_mem_esc1 (not_mem_esc1 (not_mem_esc1 h (by decide) (by decide))
    (by decide) (by decide)) (by decide) (by decide)

theorem jsSplitF_ne_nil (sep : Str) : ∀ (f : Nat) (l : Str), jsSplitF sep f l ≠ [] := by
  intro f
  induction f with
  | zero => intro l; cases l <;> simp [jsSplitF]
  | succ f ih =>
    intro l
    cases l with
    | nil => simp [jsSplitF]
    | cons c rest =>
      simp only [jsSplitF]
      split
      · simp
      · cases h : jsSplitF sep f rest <;> simp

theorem joinSep_jsSplitF (sep : Str) (hsep : sep ≠ []) :
    ∀ (f : Nat) (l : Str), l.length ≤ f → joinSep sep (jsSplitF sep f l) = l := by
  intro f
  induction f with
  | zero =>
    intro l hl
    have : l = [] := List.eq_nil_of_length_eq_zero (Nat.le_zero.mp hl)
    subst this; rfl
  | succ f ih =>
    intro l hl
    cases l with
    | nil => rfl
    | cons c rest =>
      simp only [jsSplitF]
      split
      · next hcond =>
        obtain ⟨t, ht⟩ := isPrefixOf_eq_true_iff.mp hcond.2
        have hdrop : (c :: rest).drop sep.length = t := by
          rw [← ht]; exact List.drop_left sep t
        have hslen : 1 ≤ sep.length := by
          cases hs : sep with
          | nil => exact absurd hs hsep
          | cons a b => simp
        have hlent : t.length ≤ f := by
          have hl2 := congrArg List.length ht
          simp [List.length_append] at hl2
          simp at hl
          omega
        rw [hdrop]
        cases hSs : jsSplitF sep f t with
        | nil => exact absurd hSs (jsSplitF_ne_nil sep f t)
        | cons s0 srest =>
          have ihr : joinSep sep (s0 :: srest) = t := by rw [← hSs]; exact ih t hlent
          show [] ++ sep ++ joinSep sep (s0 :: srest) = c :: rest
          rw [ihr]; simpa using ht
      · next hcond =>
        cases hSs : jsSplitF sep f rest with
        | nil => exact absurd hSs (jsSplitF_ne_nil sep f rest)
        | cons h0 t0 =>
          have ihr : joinSep sep (h0 :: t0) = rest := by
            rw [← hSs]
            exact ih rest (by simp at hl; omega)
          cases t0 with
          | nil =>
            show c :: h0 = c :: rest
            simp only [joinSep] at ihr
            rw [ihr]
          | cons b t1 =>
            show (c :: h0) ++ sep ++ joinSep sep (b :: t1) = c :: rest
            have : h0 ++ sep ++ joinSep sep (b :: t1) = rest := ihr
            rw [← this]; simp

theorem two_le_jsSplitF_of_contains (sep : Str) (hsep : sep ≠ []) :
    ∀ (f : Nat) (l : Str), l.length ≤ f → strContains sep l = true →
      2 ≤ (jsSplitF sep f l).length := by
  intro f
  induction f with
  | zero =>
    intro l hl hc
    have : l = [] := List.eq_nil_of_length_eq_zero (Nat.le_zero.mp hl)
    subst this
    simp [strContains, hsep] at hc
  | succ f ih =>
    intro l hl hc
    cases l with
    | nil => simp [strContains, hsep] at hc
    | cons c rest =>
      simp only [jsSplitF]
      split
      · next hcond =>
        have := jsSplitF_ne_nil sep f ((c :: rest).drop sep.length)
        cases hSs : jsSplitF sep f ((c :: rest).drop sep.length) with
        | nil => exact absurd hSs this
        | cons s0 srest => simp
      · next hcond =>
        have hpre : sep.isPrefixOf (c :: rest) = false := by
          by_cases hp : sep.isPrefixOf (c :: rest) = true
          · exact absurd ⟨hsep, hp⟩ hcond
          · exact Bool.not_eq_true _ ▸ hp
        have hc2 : strContains sep rest = true := by
          simp only [strContains, hpre, Bool.false_or] at hc
          exact hc
        have ihr := ih rest (by simp at hl; omega) hc2
        cases hSs : jsSplitF sep f rest with
        | nil => exact absurd hSs (jsSplitF_ne_nil sep f rest)
        | cons h0 t0 =>
          rw [hSs] at ihr
          simpa using ihr

theorem capRun_ne_nil {s m : Str} (h : capRun s = some m) : m ≠ [] := by
  simp only [capRun] at h
  split at h
  · exact absurd h (by simp)
  · next hne => rw [Option.some_inj] at h; exact h ▸ hne

theorem fallbackAt_ne_nil {u m : Str} (h : fallbackAt u = some m) : m ≠ [] := by
  simp only [fallbackAt] at h
  split at h
  · split at h
    · split at h
      · split at h
        · exact capRun_ne_nil h
        · exact capRun_ne_nil h
      · exact absurd h (by simp)
    · exact absurd h (by simp)
  · exact absurd h (by simp)

theorem scanFirst_fallbackAt_ne_nil : ∀ l m : Str, scanFirst fallbackAt l = some m → m ≠ [] := by
  intro l
  induction l with
  | nil => intro m h; exact fallbackAt_ne_nil h
  | cons c rest ih =>
    intro m h
    simp only [scanFirst] at h
    cases hf : fallbackAt (c :: rest) with
    | some m2 => rw [hf] at h; rw [Option.some_inj] at h; exact h ▸ fallbackAt_ne_nil hf
    | none => rw [hf] at h; exact ih m h

theorem range'_snoc (n : Nat) : List.range' 1 n ++ [n + 1] = List.range' 1 (n + 1) := by
  rw [List.range'_concat]
  simp [Nat.add_comm]

theorem stepIter_loopInv (cfg : Config) (task : Str) (env : StepEnv) (st : LoopSt)
    (hfin : st.finished = false) (h : loopInv st) : loopInv (stepIter cfg task env st) := by
  obtain ⟨h1, h2, h3, h4⟩ := h
  have herr : st.result.error = none := by
    cases he : st.result.error with
    | none => rfl
    | some e =>
      rw [he] at h4
      simp at h4
      rw [h4] at hfin
      exact absurd hfin (by simp)
  rw [herr] at h3
  simp at h3
  cases hca : env.currentApp with
  | error e =>
    have hA : (stepIter cfg task env st).result.actions = st.result.actions := by
      simp [stepIter, hca]
    have hS : (stepIter cfg task env st).result.steps = st.stepCount + 1 := by
      simp [stepIter, hca]
    have hC : (stepIter cfg task env st).stepCount = st.stepCount + 1 := by
      simp [stepIter, hca]
    have hE : (stepIter cfg task env st).result.error = some e := by
      simp [stepIter, hca]
    have hF : (stepIter cfg task env st).finished = true := by
      simp [stepIter, hca]
    exact ⟨by rw [hA]; exact h1, by rw [hS, hC], by rw [hC, hA, hE, h3]; simp,
           fun _ => hF⟩
  | ok app =>
    cases hapi : env.apiResult with
    | error e =>
      have hA : (stepIter cfg task env st).result.actions = st.result.actions := by
        simp [stepIter, hca, hapi]
      have hS : (stepIter cfg task env st).result.steps = st.stepCount + 1 := by
        simp [stepIter, hca, hapi]
      have hC : (stepIter cfg task env st).stepCount = st.stepCount + 1 := by
        simp [stepIter, hca, hapi]
      have hE : (stepIter cfg task env st).result.error = some e := by
        simp [stepIter, hca, hapi]
      have hF : (stepIter cfg task env st).finished = true := by
        simp [stepIter, hca, hapi]
      exact ⟨by rw [hA]; exact h1, by rw [hS, hC], by rw [hC, hA, hE, h3]; simp,
             fun _ => hF⟩
    | ok r =>
      cases hpa : parseAction (parseResponse r).action with
      | error e =>
        have hA : (stepIter cfg task env st).result.actions = st.result.actions := by
          simp [stepIter, hca, hapi, hpa]
        have hS : (stepIter cfg task env st).result.steps = st.stepCount + 1 := by
          simp [stepIter, hca, hapi, hpa]
        have hC : (stepIter cfg task env st).stepCount = st.stepCount + 1 := by
          simp [stepIter, hca, hapi, hpa]
        have hE : (stepIter cfg task env st).result.error = some e := by
          simp [stepIter, hca, hapi, hpa]
        have hF : (stepIter cfg task env st).finished = true := by
          simp [stepIter, hca, hapi, hpa]
        exact ⟨by rw [hA]; exact h1, by rw [hS, hC], by rw [hC, hA, hE, h3]; simp,
               fun _ => hF⟩
      | ok a =>
        have hA : (stepIter cfg task env st).result.actions.map StepRec.step
            = st.result.actions.map StepRec.step ++ [st.stepCount + 1] := by
          simp only [stepIter, hca, hapi, hpa]
          split <;> simp
        have hL : (stepIter cfg task env st).result.actions.length
            = st.result.actions.length + 1 := by
          simp only [stepIter, hca, hapi, hpa]
          split <;> simp
        have hS : (stepIter cfg task env st).result.steps = st.stepCount + 1 := by
          simp only [stepIter, hca, hapi, hpa]
          split <;> simp
        have hC : (stepIter cfg task env st).stepCount = st.stepCount + 1 := by
          simp only [stepIter, hca, hapi, hpa]
          split <;> simp
        have hE : (stepIter cfg task env st).result.error = none := by
          simp only [stepIter, hca, hapi, hpa]
          split <;> simp [herr]
        refine ⟨?_, by rw [hS, hC], by rw [hC, hL, hE, h3]; simp, ?_⟩
        · rw [hA, hL, h1, h3]
          exact range'_snoc _
        · intro hx
          rw [hE] at hx
          simp at hx

theorem runAux_loopInv (cfg : Config) (task : Str) (env : Nat → StepEnv) :
    ∀ (fuel : Nat) (st : LoopSt), loopInv st → loopInv (runAux cfg task env fuel st) := by
  intro fuel
  induction fuel with
  | zero => intro st h; exact h
  | succ f ih =>
    intro st h
    simp only [runAux]
    split
    · next hcond => exact ih _ (stepIter_loopInv cfg task _ st hcond.2 h)
    · exact h

theorem collapseLast_concat (xs : List Msg) (m : Msg) :
    collapseLast (xs ++ [m]) = xs ++ [⟨m.role, collapseContent m.content⟩] := by
  simp [collapseLast, List.getLast?_concat, List.dropLast_concat]

theorem stepIter_historyInv (cfg : Config) (task : Str) (env : StepEnv) (st : LoopSt)
    (hclean : cleanEnv env = true) (hinv : historyInvB cfg st = true) :
    historyInvB cfg (stepIter cfg task env st) = true := by
  cases hca : env.currentApp with
  | error e => simp [cleanEnv, hca, Except.isOk, Except.toBool] at hclean
  | ok app =>
    cases hapi : env.apiResult with
    | error e => simp [cleanEnv, hapi, Except.isOk, Except.toBool] at hclean
    | ok r =>
      cases hpa : parseAction (parseResponse r).action with
      | error e => simp [cleanEnv, hapi, hpa, Except.isOk, Except.toBool] at hclean
      | ok a =>
        have hh : st.context.head? = some (systemMsg cfg) := by
          simp only [historyInvB, Bool.and_eq_true, decide_eq_true_eq] at hinv
          exact hinv.1
        have hall : st.context.all textOnlyMsg = true := by
          simp only [historyInvB, Bool.and_eq_true] at hinv
          exact hinv.2
        cases hctx : st.context with
        | nil => rw [hctx] at hh; simp at hh
        | cons m0 crest =>
          have hm0 : m0 = systemMsg cfg := by
            rw [hctx] at hh; simpa using hh
          have hHead : (stepIter cfg task env st).context.head? = some (systemMsg cfg) := by
            simp only [stepIter, hca, hapi, hpa, apply_ite LoopSt.context, ite_self]
            rw [collapseLast_concat, hctx]
            simp [hm0]
          have hAll : (stepIter cfg task env st).context.all textOnlyMsg = true := by
            simp only [stepIter, hca, hapi, hpa, apply_ite LoopSt.context, ite_self]
            rw [collapseLast_concat]
            simp [List.all_append, textOnlyMsg, collapseContent, hall]
          simp [historyInvB, hHead, hAll]

theorem runAux_historyInv (cfg : Config) (task : Str) (env : Nat → StepEnv)
    (hclean : ∀ k, cleanEnv (env k) = true) :
    ∀ (fuel : Nat) (st : LoopSt), historyInvB cfg st = true →
      historyInvB cfg (runAux cfg task env fuel st) = true := by
  intro fuel
  induction fuel with
  | zero => intro st h; exact h
  | succ f ih =>
    intro st h
    simp only [runAux]
    split
    · next hcond => exact ih _ (stepIter_historyInv cfg task _ st (hclean _) h)
    · exact h

theorem attemptType_shape (v : Str) :
    attemptType ("text=".data ++ v) =
      (match v with
       | q1 :: body =>
         if isQuote q1 then
           (match body.reverse with
            | ')' :: q2 :: mrev =>
              if isQuote q2 && noNL mrev.reverse then some mrev.reverse else none
            | _ => none)
         else none
       | [] => none) := by
  have hpre : ("text=".data).isPrefixOf ("text=".data ++ v) = true :=
    isPrefixOf_eq_true_iff.mpr ⟨v, rfl⟩
  have hdrop : ("text=".data ++ v).drop 5 = v := by
    rw [show (5 : Nat) = ("text=".data).length from rfl]
    exact List.drop_left _ _
  rw [attemptType, if_pos (by rw [hpre])]
  rw [hdrop]
  rfl

theorem tryKV_not_word {c : Char} (hc : isWordChar c = false) (l : Str) :
    tryKV (c :: l) = none := by
  simp [tryKV, List.takeWhile_cons, hc]

theorem kvScanF_step_some {f f2 : Nat} (hf : f = f2 + 1) {c : Char} {l r : Str}
    {kv : Str × JVal} (h : tryKV (c :: l) = some (kv, r)) :
    kvScanF f (c :: l) = kv :: kvScanF f2 r := by
  subst hf
  simp [kvScanF, h]

theorem kvScanF_step_none {f f2 : Nat} (hf : f = f2 + 1) {c : Char} {l : Str}
    (h : tryKV (c :: l) = none) : kvScanF f (c :: l) = kvScanF f2 l := by
  subst hf
  simp [kvScanF, h]

theorem kvScanF_nil (f : Nat) : kvScanF f [] = [] := by
  cases f <;> rfl

theorem attemptType_none_suffix (t : Str) (hnl : '\n' ∈ t) (hq : ¬ '"' ∈ t)
    (hsq : strContains ("text=".data ++ [SQ]) t = false) :
    ∀ u : Str, u <:+ P4 ++ (t ++ S4) → attemptType u = none := by
  intro u hu
  rcases suffix_append_cases hu with hu2 | ⟨v, hvP, hvne, rfl⟩
  · rcases suffix_append_cases hu2 with hu3 | ⟨w, hwt, hwne, rfl⟩
    · rw [show S4 = '"' :: [')'] from rfl] at hu3
      rcases List.suffix_cons_iff.mp hu3 with rfl | hu4
      · decide
      · rcases List.suffix_cons_iff.mp hu4 with rfl | hu5
        · decide
        · rw [List.suffix_nil.mp hu5]; decide
    · by_cases h5 : ("text=".data).isPrefixOf (w ++ S4) = true
      · obtain ⟨v2, hv2⟩ := isPrefixOf_eq_true_iff.mp h5
        rcases List.append_eq_append_iff.mp hv2 with ⟨z, hwz, hv2z⟩ | ⟨z, hTz, hSz⟩
        · cases z with
          | nil =>
            rw [hwz]
            simp only [List.append_nil]
            decide
          | cons q1 z2 =>
            by_cases hq1 : isQuote q1 = true
            · exfalso
              have hp : ("text=".data ++ [q1]) <+: w := ⟨z2, by rw [hwz]; simp⟩
              have hinf : ("text=".data ++ [q1]) <:+: t :=
                List.infix_iff_prefix_suffix.mpr ⟨w, hp, hwt⟩
              rcases (by simpa [isQuote] using hq1 : q1 = '"' ∨ q1 = SQ) with rfl | rfl
              · exact hq (hinf.subset (by simp))
              · rw [strContains_of_infix_rel hinf] at hsq
                exact Bool.noConfusion hsq
            · have hu2 : w ++ S4 = "text=".data ++ (q1 :: (z2 ++ S4)) := by rw [hwz]; simp
              rw [hu2, attemptType_shape]
              have hq1f : isQuote q1 = false := Bool.not_eq_true _ ▸ hq1
              simp [hq1f]
        · cases z with
          | nil =>
            have hw : w = "text=".data := by simpa using hTz.symm
            rw [hw]
            decide
          | cons zc z2 =>
            exfalso
            have hS : ('"' :: [')'] : Str) = zc :: (z2 ++ v2) := by
              rw [show ('"' :: [')'] : Str) = S4 from rfl, hSz]
              simp
            have hzc : zc = '"' := ((List.cons.injEq _ _ _ _).mp hS).1.symm
            subst hzc
            have hmem : '"' ∈ ("text=".data : Str) := by
              rw [hTz]
              simp
            exact absurd hmem (by decide)
      · have h5f : ("text=".data).isPrefixOf (w ++ S4) = false := Bool.not_eq_true _ ▸ h5
        simp [attemptType, h5f]
  · by_cases h5 : ("text=".data).isPrefixOf (v ++ (t ++ S4)) = true
    · obtain ⟨v2, hv2⟩ := isPrefixOf_eq_true_iff.mp h5
      rcases List.append_eq_append_iff.mp hv2 with ⟨z, hvz, _⟩ | ⟨z, hTz, hrest⟩
      · have hvconc : v = "text=\"".data := by
          have key : ∀ v3 ∈ P4.tails, ("text=".data).isPrefixOf v3 = true →
              v3 = "text=\"".data := by decide
          exact key v ((List.mem_tails _ _).mpr hvP)
            (isPrefixOf_eq_true_iff.mpr ⟨z, hvz.symm⟩)
        have hu2 : v ++ (t ++ S4) = "text=".data ++ ('"' :: (t ++ S4)) := by
          rw [hvconc]
          rfl
        rw [hu2, attemptType_shape]
        have hrev : (t ++ S4).reverse = ')' :: '"' :: t.reverse := by
          rw [show S4 = '"' :: [')'] from rfl]
          simp
        simp [hrev, noNL_eq_false_of_mem hnl, isQuote]
      · exfalso
        have key2 : ∀ v3 ∈ P4.tails, v3 ≠ [] →
            v3.isPrefixOf ("text=".data) = true → False := by decide
        exact key2 v ((List.mem_tails _ _).mpr hvP) hvne
          (isPrefixOf_eq_true_iff.mpr ⟨z, hTz.symm⟩)
    · have h5f : ("text=".data).isPrefixOf (v ++ (t ++ S4)) = false := Bool.not_eq_true _ ▸ h5
      simp [attemptType, h5f]

theorem tryKV_action (X : Str) :
    tryKV ("action=\"Type\", text=\"".data ++ X)
      = some ((("action".data : Str), JVal.str ("Type".data)), ", text=\"".data ++ X) := rfl

theorem tryKV_text (E : Str) (h : ¬ '"' ∈ E) :
    tryKV ("text=\"".data ++ (E ++ ['"'])) = some ((("text".data : Str), JVal.str E), []) := by
  have hbreak : breakAt '"' (E ++ ['"']) = some (E, []) := by
    rw [breakAt_append_notMem h ['"']]
    simp [breakAt]
  have h0 : tryKV ("text=\"".data ++ (E ++ ['"']))
      = (tryValue ('"' :: (E ++ ['"']))).map (fun p => ((("text".data : Str), p.1), p.2)) := rfl
  have h1 : tryValue ('"' :: (E ++ ['"']))
      = (breakAt '"' (E ++ ['"'])).map (fun p => (JVal.str p.1, p.2)) := rfl
  rw [h0, h1, hbreak]
  rfl

theorem kvScan_content (E : Str) (h : ¬ '"' ∈ E) :
    kvScan ("action=\"Type\", text=\"".data ++ (E ++ ['"']))
      = [(("action".data : Str), JVal.str ("Type".data)),
         (("text".data : Str), JVal.str E)] := by
  rw [kvScan]
  have hlen : ("action=\"Type\", text=\"".data ++ (E ++ ['"'])).length = E.length + 22 := by
    simp [List.length_append]
  rw [hlen]
  have s1 : kvScanF (E.length + 22) ("action=\"Type\", text=\"".data ++ (E ++ ['"']))
      = (("action".data : Str), JVal.str ("Type".data))
          :: kvScanF (E.length + 21) (", text=\"".data ++ (E ++ ['"'])) :=
    kvScanF_step_some (by omega) (tryKV_action (E ++ ['"']))
  have s2 : kvScanF (E.length + 21) (", text=\"".data ++ (E ++ ['"']))
      = kvScanF (E.length + 20) (" text=\"".data ++ (E ++ ['"'])) :=
    kvScanF_step_none (by omega) (tryKV_not_word (by decide) _)
  have s3 : kvScanF (E.length + 20) (" text=\"".data ++ (E ++ ['"']))
      = kvScanF (E.length + 19) ("text=\"".data ++ (E ++ ['"'])) :=
    kvScanF_step_none (by omega) (tryKV_not_word (by decide) _)
  have s4 : kvScanF (E.length + 19) ("text=\"".data ++ (E ++ ['"']))
      = (("text".data : Str), JVal.str E) :: kvScanF (E.length + 18) [] :=
    kvScanF_step_some (by omega) (tryKV_text E h)
  rw [s1, s2, s3, s4, kvScanF_nil]

theorem doContent_shape (E : Str) :
    doContent (P4 ++ (E ++ S4))
      = some ("action=\"Type\", text=\"".data ++ (E ++ ['"'])) := by
  have hpre : ("do(".data).isPrefixOf (P4 ++ (E ++ S4)) = true := rfl
  rw [doContent, if_pos (by rw [hpre])]
  have hdrop : (P4 ++ (E ++ S4)).drop 3
      = "action=\"Type\", text=\"".data ++ (E ++ S4) := rfl
  rw [hdrop]
  have hrev : ("action=\"Type\", text=\"".data ++ (E ++ S4)).reverse
      = ')' :: ('"' :: (E.reverse ++ ("action=\"Type\", text=\"".data).reverse)) := by
    rw [show S4 = '"' :: [')'] from rfl]
    simp
  rw [hrev]
  simp [List.reverse_append, List.append_assoc]

theorem jsTrim_directive (t : Str) : jsTrim (P4 ++ (t ++ S4)) = P4 ++ (t ++ S4) := by
  have hshape : P4 ++ (t ++ S4)
      = 'd' :: (("o(action=\"Type\", text=\"".data ++ t ++ ['"']) ++ [')']) := by
    calc P4 ++ (t ++ S4)
        = 'd' :: ("o(action=\"Type\", text=\"".data ++ (t ++ ('"' :: [')']))) := rfl
      _ = 'd' :: (("o(action=\"Type\", text=\"".data ++ t ++ ['"']) ++ [')']) := by
          simp [List.append_assoc]
  rw [hshape, jsTrim_sandwich 'd' ')' (by decide) (by decide)]

/-! ### Claim theorems -/

/-- C1 counterexample: with a two-step budget, a decode failure on step 1
terminates the whole task at step 1 with no StepRecord appended and the
error set — the loop does not record a failed step and does not continue,
although this was not the final retry. -/
theorem decode_failure_halts_task_cex :
    (executeTask cfgTwoStep ("t".data) none (fun _ => envGarbage)).steps = 1 ∧
    (executeTask cfgTwoStep ("t".data) none (fun _ => envGarbage)).actions = [] ∧
    (executeTask cfgTwoStep ("t".data) none (fun _ => envGarbage)).error ≠ none ∧
    1 < cfgTwoStep.maxSteps := by decide

/-- C1 (amended): whenever the Action Decoder fails on a step's completion,
the per-iteration catch stores the error message on the TaskResult, clears
`success`, leaves the StepRecord list untouched, counts the step, and
terminates the loop immediately. -/
theorem decode_failure_is_fatal :
    ∀ (cfg : Config) (task : Str) (env : StepEnv) (st : LoopSt) (app r e : Str),
      env.currentApp = .ok app →
      env.apiResult = .ok r →
      parseAction (parseResponse r).action = .error e →
      (stepIter cfg task env st).finished = true ∧
      (stepIter cfg task env st).result.error = some e ∧
      (stepIter cfg task env st).result.success = false ∧
      (stepIter cfg task env st).result.actions = st.result.actions ∧
      (stepIter cfg task env st).result.steps = st.stepCount + 1 := by
  intro cfg task env st app r e hca hapi hpa
  refine ⟨?_, ?_, ?_, ?_, ?_⟩ <;> simp [stepIter, hca, hapi, hpa]

/-- C1 witness for `decode_failure_is_fatal` at a concrete run. -/
theorem decode_failure_is_fatal_witness :
    (stepIter cfgTwoStep ("t".data) envGarbage (initState cfgTwoStep none)).finished = true ∧
    (stepIter cfgTwoStep ("t".data) envGarbage (initState cfgTwoStep none)).result.error
        = some ("Failed to parse action: Failed to parse action: hello there".data) ∧
    (stepIter cfgTwoStep ("t".data) envGarbage (initState cfgTwoStep none)).result.success
        = false ∧
    (stepIter cfgTwoStep ("t".data) envGarbage (initState cfgTwoStep none)).result.actions
        = (initState cfgTwoStep none).result.actions ∧
    (stepIter cfgTwoStep ("t".data) envGarbage (initState cfgTwoStep none)).result.steps
        = (initState cfgTwoStep none).stepCount + 1 :=
  decode_failure_is_fatal cfgTwoStep ("t".data) envGarbage (initState cfgTwoStep none)
    ("unknown".data) ("hello there".data)
    ("Failed to parse action: Failed to parse action: hello there".data) rfl rfl (by decide)

/-- C2 counterexample: no execution decodes a Finish command whose dispatch
fails — `executeAction` on a `finish` discriminator returns `success := true`
unconditionally, so the claimed failing execution cannot exist. -/
theorem finish_dispatch_never_fails_cex :
    ¬ ∃ (cfg : Config) (a : JAction) (adb : Except Str Unit) (w h : ℤ),
        a.metadataTag = "finish".data ∧ (executeAction cfg a adb w h).success = false := by
  rintro ⟨cfg, a, adb, w, h, hm, hs⟩
  simp [executeAction, hm] at hs

/-- C2 (amended): when the loop terminates because the decoded value is a
Finish command, the TaskResult's success flag equals the device execution
outcome's success flag for that dispatch, and that outcome is always
`success = true` for a Finish dispatch. -/
theorem finish_result_success_from_dispatch :
    ∀ (cfg : Config) (task : Str) (env : StepEnv) (st : LoopSt) (app r : Str) (a : JAction),
      env.currentApp = .ok app →
      env.apiResult = .ok r →
      parseAction (parseResponse r).action = .ok a →
      a.metadataTag = "finish".data →
      (stepIter cfg task env st).result.success
          = (executeAction cfg a env.adb env.width env.height).success ∧
      (executeAction cfg a env.adb env.width env.height).success = true ∧
      (stepIter cfg task env st).finished = true := by
  intro cfg task env st app r a hca hapi hpa hm
  have hsucc : (executeAction cfg a env.adb env.width env.height).success = true := by
    simp [executeAction, hm]
  refine ⟨?_, hsucc, ?_⟩ <;>
    simp [stepIter, hca, hapi, hpa, hm, hsucc]

/-- C2 witness for `finish_result_success_from_dispatch` at a concrete run. -/
theorem finish_result_success_from_dispatch_witness :
    (stepIter cfgTwoStep ("t".data) envFinish (initState cfgTwoStep none)).result.success
        = (executeAction cfgTwoStep finAct envFinish.adb envFinish.width envFinish.height).success ∧
    (executeAction cfgTwoStep finAct envFinish.adb envFinish.width envFinish.height).success
        = true ∧
    (stepIter cfgTwoStep ("t".data) envFinish (initState cfgTwoStep none)).finished = true :=
  finish_result_success_from_dispatch cfgTwoStep ("t".data) envFinish (initState cfgTwoStep none)
    ("unknown".data) ("finish(message=\"Task completed.\")".data) finAct rfl rfl
    (by decide) rfl

/-- C3 counterexample: when the finish marker occurs twice, the splitter
returns only the chunk up to the second occurrence as the action directive,
dropping the rest — not everything from the first marker onward. -/
theorem finish_marker_split_drops_tail_cex :
    (parseResponse ("finish(message=\"a\")finish(message=\"b\")".data)).thinking = [] ∧
    (parseResponse ("finish(message=\"a\")finish(message=\"b\")".data)).action
        = "finish(message=\"a\")".data ∧
    ("finish(message=\"a\")".data : Str) ≠ "finish(message=\"a\")finish(message=\"b\")".data := by
  decide

/-- C3 (amended): on any completion containing the finish marker — even when
a do-call marker is also present — the splitter splits at the marker, the
reasoning is the trimmed chunk before the first occurrence, and the action
directive is the marker re-attached to the chunk between the first and
second occurrences; the chunks joined with the marker reassemble the input,
so with a single occurrence the directive is everything from the marker
onward. -/
theorem finish_marker_split_first_occurrence :
    ∀ l : Str, strContains FINM l = true →
      parseResponse l =
        ⟨jsTrim ((jsSplit FINM l).headD []), FINM ++ (jsSplit FINM l).getD 1 []⟩ ∧
      joinSep FINM (jsSplit FINM l) = l ∧
      2 ≤ (jsSplit FINM l).length := by
  intro l h
  exact ⟨by simp [parseResponse, h],
         joinSep_jsSplitF FINM (by decide) l.length l le_rfl,
         two_le_jsSplitF_of_contains FINM (by decide) l.length l le_rfl h⟩

/-- C3 witness for `finish_marker_split_first_occurrence` at a concrete input. -/
theorem finish_marker_split_first_occurrence_witness :
    parseResponse ("ok finish(message=\"x\")".data)
        = ⟨jsTrim ((jsSplit FINM ("ok finish(message=\"x\")".data)).headD []),
           FINM ++ (jsSplit FINM ("ok finish(message=\"x\")".data)).getD 1 []⟩ ∧
    joinSep FINM (jsSplit FINM ("ok finish(message=\"x\")".data))
        = "ok finish(message=\"x\")".data ∧
    2 ≤ (jsSplit FINM ("ok finish(message=\"x\")".data)).length :=
  finish_marker_split_first_occurrence ("ok finish(message=\"x\")".data) (by decide)

/-- C4 counterexample: a line-broken `Type` directive whose quoted text
itself contains a quoted `text=` fragment decodes through the special-case
pattern matching at an interior position, so the returned text argument is
truncated rather than the full escaped text. -/
theorem type_newline_truncation_cex :
    parseAction ("do(action=\"Type\", text=\"a\ntext=".data ++ [SQ] ++ "x".data ++ [SQ]
                  ++ "\")".data)
      = .ok ⟨"do".data, [(("action".data : Str), JVal.str ("Type".data)),
                         (("text".data : Str), JVal.str ("x".data ++ [SQ]))]⟩ ∧
    ("x".data ++ [SQ] : Str) ≠ escape3 ("a\ntext=".data ++ [SQ] ++ "x".data ++ [SQ]) := by
  decide

/-- C4 (amended): for a quoted `Type` directive whose text contains a
literal newline, no quote, and no embedded quoted `text=` fragment, the
special-case pattern cannot match, the decoder escapes the control
characters, and the generic scanner returns a do-command whose text argument
is exactly the escaped original text — nothing lost, no decode failure. -/
theorem type_newline_escaped_full_text :
    ∀ t : Str, '\n' ∈ t → ¬ '"' ∈ t → strContains ("text=".data ++ [SQ]) t = false →
      parseAction (P4 ++ (t ++ S4))
        = .ok ⟨"do".data, [(("action".data : Str), JVal.str ("Type".data)),
                           (("text".data : Str), JVal.str (escape3 t))]⟩ := by
  intro t h1 h2 h3
  have htrim : jsTrim (P4 ++ (t ++ S4)) = P4 ++ (t ++ S4) := jsTrim_directive t
  have hTY1 : TY1.isPrefixOf (P4 ++ (t ++ S4)) = true := rfl
  have hscan : scanFirst attemptType (P4 ++ (t ++ S4)) = none :=
    scanFirst_eq_none_of _ _ (attemptType_none_suffix t h1 h2 h3)
  have hdo : ("do(".data).isPrefixOf (P4 ++ (t ++ S4)) = true := rfl
  have hesc : escape3 (P4 ++ (t ++ S4)) = P4 ++ (escape3 t ++ S4) := by
    rw [escape3_append, escape3_append]
    rw [show escape3 P4 = P4 from by decide, show escape3 S4 = S4 from by decide]
  have hdoc := doContent_shape (escape3 t)
  have hkv := kvScan_content (escape3 t) (not_mem_escape3_dq h2)
  simp only [parseAction, htrim, hTY1, Bool.true_or, if_true, hscan, hdo, hesc, hdoc, hkv]

/-- C4 witness for `type_newline_escaped_full_text` at a concrete text. -/
theorem type_newline_escaped_full_text_witness :
    parseAction (P4 ++ (("a\nb".data) ++ S4))
      = .ok ⟨"do".data, [(("action".data : Str), JVal.str ("Type".data)),
                         (("text".data : Str), JVal.str (escape3 ("a\nb".data)))]⟩ :=
  type_newline_escaped_full_text ("a\nb".data) (by decide) (by decide) (by decide)

/-- C5: `finish(message="done")` decodes to a Finish command whose message
is exactly `done`; and any trimmed directive with the finish-call prefix on
which the strict quoted-message pattern fails still decodes to a Finish
command with a non-empty message — never a decode failure. -/
theorem finish_decode_never_fails :
    (parseAction ("finish(message=\"done\")".data) =
      .ok ⟨"finish".data, [("message".data, JVal.str ("done".data))]⟩) ∧
    ∀ s : Str,
      (("finish(".data).isPrefixOf (jsTrim s) || ("Finish(".data).isPrefixOf (jsTrim s)) = true →
      scanFirst strictFinishAt (jsTrim s) = none →
      ∃ m, parseAction s = .ok ⟨"finish".data, [("message".data, JVal.str m)]⟩ ∧ m ≠ [] := by
  constructor
  · decide
  intro s hpre hstrict
  have hhead : ∃ t, jsTrim s = 'f' :: t ∨ jsTrim s = 'F' :: t := by
    have hpre2 : ("finish(".data).isPrefixOf (jsTrim s) = true ∨
        ("Finish(".data).isPrefixOf (jsTrim s) = true := by simpa using hpre
    rcases hpre2 with h | h
    · obtain ⟨t, ht⟩ := isPrefixOf_eq_true_iff.mp h
      exact ⟨"inish(".data ++ t, Or.inl (by rw [← ht]; rfl)⟩
    · obtain ⟨t, ht⟩ := isPrefixOf_eq_true_iff.mp h
      exact ⟨"inish(".data ++ t, Or.inr (by rw [← ht]; rfl)⟩
  obtain ⟨t, hft⟩ := hhead
  have hTY1 : TY1.isPrefixOf (jsTrim s) = false := by
    rw [show TY1 = 'd' :: ("o(action=\"Type\"".data) from rfl]
    rcases hft with hft | hft <;> rw [hft] <;> exact isPrefixOf_false_of_head_ne (by decide) _ _
  have hTY2 : TY2.isPrefixOf (jsTrim s) = false := by
    rw [show TY2 = 'd' :: ("o(action=\"Type_Name\"".data) from rfl]
    rcases hft with hft | hft <;> rw [hft] <;> exact isPrefixOf_false_of_head_ne (by decide) _ _
  have hdo : ("do(".data).isPrefixOf (jsTrim s) = false := by
    rw [show ("do(".data : Str) = 'd' :: ("o(".data) from rfl]
    rcases hft with hft | hft <;> rw [hft] <;> exact isPrefixOf_false_of_head_ne (by decide) _ _
  have hne : jsTrim s ≠ [] := by
    rcases hft with hft | hft <;> rw [hft] <;> exact List.cons_ne_nil _ _
  simp only [parseAction, hTY1, hTY2, hdo, hpre, Bool.false_or, Bool.or_self,
             if_false, Bool.false_eq_true, if_true, parseFinish, hstrict]
  cases hfb : scanFirst fallbackAt (jsTrim s) with
  | some m =>
    exact ⟨m, by simp, scanFirst_fallbackAt_ne_nil _ m hfb⟩
  | none =>
    exact ⟨jsTrim s, by simp, hne⟩

/-- C5 witness for `finish_decode_never_fails` at an unquoted variant. -/
theorem finish_decode_never_fails_witness :
    ∃ m, parseAction ("finish(message=done)".data)
        = .ok ⟨"finish".data, [("message".data, JVal.str m)]⟩ ∧ m ≠ [] :=
  finish_decode_never_fails.2 ("finish(message=done)".data) (by decide) (by decide)

/-- C6: the Coordinate Normalizer returns exactly
`(round (x / 1000 * w), round (y / 1000 * h))` with no clamping, for all
inputs including out-of-range ones; in particular `(0, 0)` maps to `(0, 0)`,
`(1000, 1000)` maps to `(w, h)`, and `(2000, 2000)` extrapolates to
`(2 * w, 2 * h)`. -/
theorem coordinate_normalizer_formula :
    ∀ (x y : ℚ) (w h : ℤ),
      convertRelativeToAbsolute [x, y] w h
          = (round (x / 1000 * (w : ℚ)), round (y / 1000 * (h : ℚ))) ∧
      convertRelativeToAbsolute [0, 0] w h = (0, 0) ∧
      convertRelativeToAbsolute [1000, 1000] w h = (w, h) ∧
      convertRelativeToAbsolute [2000, 2000] w h = (2 * w, 2 * h) := by
  intro x y w h
  refine ⟨rfl, ?_, ?_, ?_⟩
  · simp [convertRelativeToAbsolute]
  · have hw : ((1000 : ℚ) / 1000 * (w : ℚ)) = ((w : ℤ) : ℚ) := by norm_num
    have hh : ((1000 : ℚ) / 1000 * (h : ℚ)) = ((h : ℤ) : ℚ) := by norm_num
    simp [convertRelativeToAbsolute, hw, hh]
  · have e1 : (2000 : ℚ) / 1000 = 2 := by norm_num
    have hw : round ((2 : ℚ) * (w : ℚ)) = 2 * w := by
      rw [show ((2 : ℚ) * (w : ℚ)) = ((2 * w : ℤ) : ℚ) by push_cast; ring, round_intCast]
    have hh : round ((2 : ℚ) * (h : ℚ)) = 2 * h := by
      rw [show ((2 : ℚ) * (h : ℚ)) = ((2 * h : ℤ) : ℚ) by push_cast; ring, round_intCast]
    simp [convertRelativeToAbsolute, e1, hw, hh]

/-- C7: with `maxSteps = 1`, a `Tap` reply, and a successful dispatch
without `shouldFinish`, the TaskResult has `steps = 1`, `success = false`,
`finished = false`, exactly one StepRecord with `success = true`, and an
empty error field. -/
theorem maxsteps_one_tap_result :
    executeTask cfgOneStep ("open settings".data) none (fun _ => envTapOk) =
      ⟨false, false, false, 1, 1,
       [⟨1, [], ⟨"do".data, [("action".data, .str ("Tap".data)),
                             ("element".data, .list [.num 500, .num 500])]⟩,
         true, none, none⟩],
       none, none, none, none⟩ := by decide

/-- C8: after any number of completed steps, the conversation history keeps
the system turn unmodified at index 0 and every persisted turn — in
particular every user turn already consumed by the model — is text-only,
its image attachment dropped. -/
theorem history_system_head_text_only :
    ∀ (cfg : Config) (task : Str) (dvc : Option Str) (env : Nat → StepEnv) (fuel : Nat),
      (∀ k, cleanEnv (env k) = true) →
      historyInvB cfg (runAux cfg task env fuel (initState cfg dvc)) = true := by
  intro cfg task dvc env fuel h
  exact runAux_historyInv cfg task env h fuel _
    (by simp [historyInvB, initState, systemMsg, textOnlyMsg])

/-- C8 witness for `history_system_head_text_only` on a concrete clean run. -/
theorem history_system_head_text_only_witness :
    historyInvB cfgOneStep
      (runAux cfgOneStep ("t".data) (fun _ => envTapOk) 1 (initState cfgOneStep none)) = true := by
  have hcl : cleanEnv envTapOk = true := by decide
  exact history_system_head_text_only cfgOneStep ("t".data) none (fun _ => envTapOk) 1 (fun _ => hcl)

/-- C9: the Response Splitter is total by construction (it is a plain
function producing both fields), and on any input containing none of the
three markers it returns empty reasoning and the entire trimmed input as
the action directive. -/
theorem splitter_total_fallback :
    ∀ l : Str, strContains FINM l = false → strContains DOM l = false →
      strContains ANSM l = false → parseResponse l = ⟨[], jsTrim l⟩ := by
  intro l h1 h2 h3
  simp [parseResponse, h1, h2, h3]

/-- C9 witness for `splitter_total_fallback` at a marker-free input. -/
theorem splitter_total_fallback_witness : parseResponse ("hello".data) = ⟨[], jsTrim ("hello".data)⟩ :=
  splitter_total_fallback ("hello".data) (by decide) (by decide) (by decide)

/-- C10: in every run, the StepRecords carry step indices `1, ..., n` with
no gaps, and the steps counter equals `n`, or `n + 1` exactly when the run
ended because an iteration aborted with a fatal error before its StepRecord
was appended. -/
theorem step_records_contiguous_steps_count :
    ∀ (cfg : Config) (task : Str) (dvc : Option Str) (env : Nat → StepEnv),
      ((executeTask cfg task dvc env).actions.map StepRec.step)
          = List.range' 1 (executeTask cfg task dvc env).actions.length ∧
      (executeTask cfg task dvc env).steps
          = (executeTask cfg task dvc env).actions.length
            + (if (executeTask cfg task dvc env).error.isSome then 1 else 0) := by
  intro cfg task dvc env
  have h := runAux_loopInv cfg task env cfg.maxSteps (initState cfg dvc)
    (by refine ⟨rfl, rfl, rfl, ?_⟩; intro hx; simp [initState] at hx)
  obtain ⟨h1, h2, h3, _⟩ := h
  exact ⟨h1, h2.trans h3⟩
